import Mathlib

set_option maxRecDepth 4000

/-!
Verification of the sheet-packing / layout / cost engine of the ezgangsheets
repository (src/index.js), shallowly embedded in Lean 4.

All physical quantities are modelled as rationals (the JS code computes with
IEEE doubles; the algorithms use only +, -, *, /, Math.floor and Math.ceil,
which we read as exact rational arithmetic).  `Math.floor` and `Math.ceil`
are `Int.floor` / `Int.ceil`.
-/

/-- Constant from src/index.js line 216: `POINTS_PER_INCH = 72`. -/
def POINTS_PER_INCH : ℚ := 72

/-- `SAFE_MARGIN_INCH * POINTS_PER_INCH = 0.125 * 72 = 9` points, the value
the handlers compute as `safeMarginPts` (src/index.js lines 375, 415, 646). -/
def safeMarginPts : ℚ := 9

/-- `SPACING_INCH * POINTS_PER_INCH = 0.5 * 72 = 36` points, the value the
handlers compute as `spacingPts` (src/index.js lines 376, 416, 647). -/
def spacingPts : ℚ := 36

/-! ## Layout Calculator (src/index.js lines 374-394) -/

/-- Result record of `calculateLayout`.  The zero-return at line 386 omits the
`logoTotalWidth`/`logoTotalHeight` fields, which no caller reads; we keep only
the three counts. -/
structure LayoutResult where
  logosPerRow : ℤ
  rowsPerSheet : ℤ
  logosPerSheet : ℤ
deriving DecidableEq

/-- Core of `calculateLayout` (src/index.js lines 374-394), with the margin,
spacing, sheet width and max height in points taken as parameters (the JS
function reads them from the module constants / converts from inches).
Note the early return: if `logosPerRow < 1` the function returns all-zero
WITHOUT computing `rowsPerSheet` (line 386). -/
def layoutFrom (width height marginPts spacing sheetWidthPts maxHeightPts : ℚ) :
    LayoutResult :=
  let logoTotalWidth := width + spacing
  let logoTotalHeight := height + spacing
  let logosPerRow : ℤ :=
    Int.floor ((sheetWidthPts - marginPts * 2 + spacing) / logoTotalWidth)
  if logosPerRow < 1 then ⟨0, 0, 0⟩
  else
    let rowsPerSheet : ℤ :=
      Int.floor ((maxHeightPts - marginPts * 2 + spacing) / logoTotalHeight)
    ⟨logosPerRow, rowsPerSheet, logosPerRow * rowsPerSheet⟩

/-- `calculateLayout(width, height, isRotated, gangWidth, maxLength)`
(src/index.js lines 374-394).  The JS parameter `isRotated` is never read in
the body, so it is omitted here.  `gangWidth` and `maxLength` are in inches. -/
def calculateLayout (width height gangWidth maxLength : ℚ) : LayoutResult :=
  layoutFrom width height safeMarginPts spacingPts
    (gangWidth * POINTS_PER_INCH) (maxLength * POINTS_PER_INCH)

/-! ## Orientation Selector (src/index.js lines 337-350) -/

/-- Result of the smart-fit orientation selection. -/
structure OrientationChoice where
  isRotated : Bool
  layout : LayoutResult
deriving DecidableEq

/-- Smart-fit orientation selection in the /merge-consolidated handler,
src/index.js lines 337-350:
`horizontalLayout = calculateLayout(logoWidth, logoHeight, false, ...)`,
`verticalLayout = calculateLayout(logoHeight, logoWidth, true, ...)`;
vertical (rotated) is chosen exactly when
`verticalLayout.logosPerSheet > horizontalLayout.logosPerSheet`. -/
def chooseOrientation (logoWidth logoHeight gangWidth maxLength : ℚ) :
    OrientationChoice :=
  let horizontalLayout := calculateLayout logoWidth logoHeight gangWidth maxLength
  let verticalLayout := calculateLayout logoHeight logoWidth gangWidth maxLength
  if horizontalLayout.logosPerSheet < verticalLayout.logosPerSheet then
    ⟨true, verticalLayout⟩
  else
    ⟨false, horizontalLayout⟩

/-! ## Cost Calculator (src/index.js lines 221-251) -/

/-- `DEFAULT_COST_TABLE` (src/index.js lines 221-234), as an association list
from height tier (whole inches) to price in dollars.  A JS object with
numeric keys has each key at most once, which the association-list theorems
below record as a `Nodup` hypothesis on the key list. -/
def DEFAULT_COST_TABLE : List (ℤ × ℚ) :=
  [(12, 5.28), (24, 10.56), (36, 15.84), (48, 21.12), (60, 26.40), (80, 35.20),
   (100, 44.00), (120, 49.28), (140, 56.32), (160, 61.60), (180, 68.64),
   (200, 75.68)]

/-- Model of `availableTiers = Object.keys(costTable).map(Number).sort((a, b) => a - b)`
(src/index.js line 247): the keys in ascending order. -/
def sortTiers (keys : List ℤ) : List ℤ :=
  keys.insertionSort (· ≤ ·)

/-- Model of `Math.max(...availableTiers)` (src/index.js line 248): `none`
models JS `-Infinity` (empty argument list, whereupon the final
`costTable[nextTier]` lookup is `undefined`). -/
def maxKey : List ℤ → Option ℤ
  | [] => none
  | x :: xs => some (xs.foldl max x)

/-- The part of `calculateCost` after rounding (src/index.js lines 241-250).
`if (costTable[roundedHeight])` is a JS truthiness test, hence the
`getD 0 ≠ 0` guard; likewise `find(t => t >= roundedHeight) || Math.max(...)`
falls through to the max both when `find` returns `undefined` and when the
found tier is the (falsy) number 0.  A lookup of a key that is absent
(`undefined`) is modelled by `none`. -/
def costOfRounded (roundedHeight : ℤ) (costTable : List (ℤ × ℚ)) : Option ℚ :=
  if (costTable.lookup roundedHeight).getD 0 ≠ 0 then
    costTable.lookup roundedHeight
  else
    let availableTiers := sortTiers (costTable.map Prod.fst)
    let nextTier : Option ℤ :=
      match availableTiers.find? (fun t => decide (roundedHeight ≤ t)) with
      | some t => if t ≠ 0 then some t else maxKey availableTiers
      | none => maxKey availableTiers
    match nextTier with
    | some t => costTable.lookup t
    | none => none

/-- `calculateCost(widthInches, heightInches, costTable)` (src/index.js lines
237-251).  `widthInches` is never read in the body, so it is omitted.
`roundedHeight = Math.ceil(heightInches / 12) * 12` (line 239). -/
def calculateCost (heightInches : ℚ) (costTable : List (ℤ × ℚ)) : Option ℚ :=
  costOfRounded (Int.ceil (heightInches / 12) * 12) costTable

/-! ## Single-file packer: the /merge handler (src/index.js lines 620-731) -/

/-- One sheet produced by the /merge handler: how many logos it received
(line 692), the row count actually used (line 693) and the final height in
whole inches (line 716). -/
structure MergeSheet where
  logosOnThisSheet : ℕ
  usedRows : ℕ
  finalHeightInch : ℤ
deriving DecidableEq

/-- `Math.ceil(a / b)` for natural `a`, `b` (`b` a positive count). -/
def natCeilDiv (a b : ℕ) : ℕ := (a + b - 1) / b

/-- `totalSheetsNeeded = Math.ceil(quantity / logosPerSheet)` (src/index.js
line 668), as the JS real-division-then-ceil.  (For `logosPerSheet = 0` the
JS value is `Infinity` and the sheet loop never terminates — claim C3; this
model is used only with `logosPerSheet ≥ 1`.) -/
def totalSheetsNeeded (quantity logosPerSheet : ℕ) : ℕ :=
  (Int.ceil ((quantity : ℚ) / (logosPerSheet : ℚ))).toNat

/-- The /merge sheet loop (src/index.js lines 688-731), one iteration per
sheet: `logosOnThisSheet = Math.min(remaining, logosPerSheet)` (line 692),
`usedRows = Math.ceil(logosOnThisSheet / logosPerRow)` (line 693),
`usedHeightPts = usedRows * logoTotalHeight + safeMarginPts * 2 - spacingPts`
(lines 694-695), `roundedHeightPts = Math.ceil(usedHeightPts / 72) * 72`
(lines 696-697), `finalHeightInch = Math.ceil(roundedHeightPts / 72)`
(line 716); the inner while/for loops (lines 704-713) draw exactly
`logosOnThisSheet` copies and decrement `remaining` once per copy. -/
def mergeLoop (logosPerSheet logosPerRow : ℕ) (logoTotalHeight : ℚ) :
    ℕ → ℕ → List MergeSheet
  | 0, _ => []
  | fuel + 1, remaining =>
    let logosOnThisSheet := min remaining logosPerSheet
    let usedRows := natCeilDiv logosOnThisSheet logosPerRow
    let usedHeightPts : ℚ :=
      usedRows * logoTotalHeight + safeMarginPts * 2 - spacingPts
    let roundedHeightPts : ℚ :=
      Int.ceil (usedHeightPts / POINTS_PER_INCH) * POINTS_PER_INCH
    let finalHeightInch : ℤ := Int.ceil (roundedHeightPts / POINTS_PER_INCH)
    ⟨logosOnThisSheet, usedRows, finalHeightInch⟩ ::
      mergeLoop logosPerSheet logosPerRow logoTotalHeight fuel
        (remaining - logosOnThisSheet)

/-- The /merge handler core (src/index.js lines 624-731): input validation
(line 631), optional rotation swap (line 644), layout computation (lines
652-664) with the `logosPerRow < 1` throw (line 658), then the sheet loop.
Gang width, max length and quantity come from `parseInt`, hence `ℕ`. -/
def mergeHandler (logoWidth logoHeight : ℚ) (rotate : Bool)
    (gangWidth maxLength quantity : ℕ) : Except String (List MergeSheet) :=
  if quantity = 0 then .error "Invalid quantity"
  else
    let layoutWidth := if rotate then logoHeight else logoWidth
    let layoutHeight := if rotate then logoWidth else logoHeight
    let sheetWidthPts : ℚ := gangWidth * POINTS_PER_INCH
    let maxHeightPts : ℚ := maxLength * POINTS_PER_INCH
    let logoTotalWidth := layoutWidth + spacingPts
    let logoTotalHeight := layoutHeight + spacingPts
    let logosPerRow : ℤ :=
      Int.floor ((sheetWidthPts - safeMarginPts * 2 + spacingPts) / logoTotalWidth)
    if logosPerRow < 1 then .error "Logo too wide for sheet"
    else
      let rowsPerSheet : ℤ :=
        Int.floor ((maxHeightPts - safeMarginPts * 2 + spacingPts) / logoTotalHeight)
      let logosPerSheet := (logosPerRow * rowsPerSheet).toNat
      .ok (mergeLoop logosPerSheet logosPerRow.toNat logoTotalHeight
        (totalSheetsNeeded quantity logosPerSheet) quantity)

/-! ## Consolidated packer: the /merge-consolidated handler
(src/index.js lines 396-563) -/

/-- One entry of the `allLogos` flat list (src/index.js lines 397-406): the
owning file's index and the oriented dimensions in points.  (The buffer,
name, and rotation flag ride along in JS but do not influence packing
geometry; the rotation flag only shifts the drawn x by the logo width at
render time, line 523.) -/
structure Logo where
  fileIndex : ℕ
  logoWidth : ℚ
  logoHeight : ℚ
deriving DecidableEq

/-- One placement emitted by Pass 2 (src/index.js lines 512, 522-528):
owning file, `xCursor` and `yCursor` at draw time. -/
structure Placement where
  fileIndex : ℕ
  x : ℚ
  y : ℚ
deriving DecidableEq

/-- `logosInCurrentRow = Math.floor((sheetWidthPts - safeMarginPts * 2 +
spacingPts) / logoTotalWidth)` (src/index.js lines 452, 502). -/
def logosInRowFor (sheetWidthPts logoTotalWidth : ℚ) : ℤ :=
  Int.floor ((sheetWidthPts - safeMarginPts * 2 + spacingPts) / logoTotalWidth)

/-- Pass 1 (sizing), src/index.js lines 427-470.  Walks the remaining logos
with the height cursor, current file index (initially `-1`, line 430) and
current-row count; returns how many logos fit (the pushed `logosToPlace`
indices are exactly `0, 1, ..., k-1`: every iteration either pushes its index
or breaks the loop) together with the final `tempYCursor`.  A new file always
forces a new row (lines 439-449); within a file a full row forces a new row
(lines 451-464); either way the loop breaks when
`tempYCursor - logoTotalHeight < safeMarginPts`. -/
def pass1 (sheetWidthPts : ℚ) : List Logo → ℚ → ℤ → ℤ → ℕ × ℚ
  | [], yCursor, _, _ => (0, yCursor)
  | logo :: rest, yCursor, currentFileIndex, currentRowLogos =>
    let logoTotalWidth := logo.logoWidth + spacingPts
    let logoTotalHeight := logo.logoHeight + spacingPts
    if (logo.fileIndex : ℤ) ≠ currentFileIndex then
      if yCursor - logoTotalHeight < safeMarginPts then (0, yCursor)
      else
        let r := pass1 sheetWidthPts rest (yCursor - logoTotalHeight)
          (logo.fileIndex : ℤ) 1
        (r.1 + 1, r.2)
    else if logosInRowFor sheetWidthPts logoTotalWidth ≤ currentRowLogos then
      if yCursor - logoTotalHeight < safeMarginPts then (0, yCursor)
      else
        let r := pass1 sheetWidthPts rest (yCursor - logoTotalHeight)
          currentFileIndex 1
        (r.1 + 1, r.2)
    else
      let r := pass1 sheetWidthPts rest yCursor currentFileIndex
        (currentRowLogos + 1)
      (r.1 + 1, r.2)

/-- Pass 2 (placement), src/index.js lines 482-535.  Replays the identical
row-advance logic over the logos Pass 1 selected, emitting a `Placement` with
`xCursor = safeMarginPts + currentRowLogos * logoTotalWidth` (line 512) and
the current `yCursor`; it never breaks. -/
def pass2 (sheetWidthPts : ℚ) : List Logo → ℚ → ℤ → ℤ → List Placement
  | [], _, _, _ => []
  | logo :: rest, yCursor, currentFileIndex, currentRowLogos =>
    let logoTotalWidth := logo.logoWidth + spacingPts
    let logoTotalHeight := logo.logoHeight + spacingPts
    if (logo.fileIndex : ℤ) ≠ currentFileIndex then
      ⟨logo.fileIndex, safeMarginPts, yCursor - logoTotalHeight⟩ ::
        pass2 sheetWidthPts rest (yCursor - logoTotalHeight) (logo.fileIndex : ℤ) 1
    else if logosInRowFor sheetWidthPts logoTotalWidth ≤ currentRowLogos then
      ⟨logo.fileIndex, safeMarginPts, yCursor - logoTotalHeight⟩ ::
        pass2 sheetWidthPts rest (yCursor - logoTotalHeight) currentFileIndex 1
    else
      ⟨logo.fileIndex, safeMarginPts + currentRowLogos * logoTotalWidth, yCursor⟩ ::
        pass2 sheetWidthPts rest yCursor currentFileIndex (currentRowLogos + 1)

/-- One sheet produced by the consolidated while loop: the Pass-2 placements
and `finalHeightInch` (src/index.js lines 473-474). -/
structure SheetData where
  placements : List Placement
  heightInch : ℤ
deriving DecidableEq

/-- The /merge-consolidated while loop (src/index.js lines 422-563).  Each
iteration runs Pass 1 at a fresh cursor `maxLengthPts - safeMarginPts`
(line 427), computes `actualHeightPts = maxLengthPts - tempYCursor +
safeMarginPts` and `finalHeightInch = Math.ceil(actualHeightPts / 72)`
(lines 473-474), runs Pass 2 at cursor `finalHeightInch * 72 - safeMarginPts`
(line 482) over exactly the selected prefix, and splices the selected
indices `0..k-1` off the front of `remainingLogos` (lines 538-540), which is
`List.drop k`.  The JS loop runs `while (remainingLogos.length > 0)`; `fuel`
bounds the number of iterations in this model (with `fuel = remaining.length`
the model agrees with the JS loop whenever every iteration consumes at least
one logo; when Pass 1 selects zero logos the JS loop never terminates —
claim C3). -/
def sheetLoop (sheetWidthPts maxLengthPts : ℚ) :
    ℕ → List Logo → List SheetData
  | 0, _ => []
  | _ + 1, [] => []
  | fuel + 1, remaining =>
    let r := pass1 sheetWidthPts remaining (maxLengthPts - safeMarginPts) (-1) 0
    let actualHeightPts := maxLengthPts - r.2 + safeMarginPts
    let finalHeightInch : ℤ := Int.ceil (actualHeightPts / POINTS_PER_INCH)
    let sheet := pass2 sheetWidthPts (remaining.take r.1)
      (finalHeightInch * POINTS_PER_INCH - safeMarginPts) (-1) 0
    ⟨sheet, finalHeightInch⟩ ::
      sheetLoop sheetWidthPts maxLengthPts fuel (remaining.drop r.1)

/-- The Pass-1 selections of successive sheets, as segments of the remaining
sequence (same recursion as `sheetLoop`, keeping the selected logos
themselves). -/
def sheetSegments (sheetWidthPts maxLengthPts : ℚ) :
    ℕ → List Logo → List (List Logo)
  | 0, _ => []
  | _ + 1, [] => []
  | fuel + 1, remaining =>
    let r := pass1 sheetWidthPts remaining (maxLengthPts - safeMarginPts) (-1) 0
    remaining.take r.1 ::
      sheetSegments sheetWidthPts maxLengthPts fuel (remaining.drop r.1)

/-- Per-file input to the consolidated packer: requested quantity and
oriented dimensions (the `logoData` entries of src/index.js lines 358-367). -/
structure LogoData where
  quantity : ℕ
  logoWidth : ℚ
  logoHeight : ℚ
deriving DecidableEq

/-- The `allLogos` flattening (src/index.js lines 397-406): one `Logo` per
requested unit, `fileIndex` = position of its file in the input.  The JS
code then sorts by `fileIndex` (line 409) with the stable `Array.sort`; the
list built here is already sorted by `fileIndex` (see
`allLogosFrom_fileIndex_le`), so that sort is the identity. -/
def allLogosFrom : ℕ → List LogoData → List Logo
  | _, [] => []
  | i, d :: rest =>
    List.replicate d.quantity ⟨i, d.logoWidth, d.logoHeight⟩ ++
      allLogosFrom (i + 1) rest

/-- `allLogos` for a job's file list. -/
def allLogos (data : List LogoData) : List Logo :=
  allLogosFrom 0 data

/-- Modelled from the spec (§4.3 height formula and §8 "Minimal-height"): the
smallest whole-inch height accommodating exactly `rows` rows of items of
total height `logoTotalHeight` (item height + spacing), i.e.
`ceil((rows * (itemHeight + spacing) + 2 * margin - spacing) / unit)`.  Used
only to compare the code's sheet heights against the spec's minimal-height
property (claim C5); the /merge-consolidated handler computes its heights
from the cursor instead (src/index.js line 473). -/
def spec_minimalHeightInch (rows : ℕ) (logoTotalHeight : ℚ) : ℤ :=
  Int.ceil ((rows * logoTotalHeight + safeMarginPts * 2 - spacingPts) /
    POINTS_PER_INCH)

/-! ## Claim C1: layout formulas -/

/-- C1 counterexample: the claim asserts `rowsPerSheet` always equals
`floor((maxLength - 2 * margin + spacing) / (itemHeight + spacing))`, but for
an item of width 300 pt and height 36 pt on a 4-inch sheet with 4-inch max
length (margin 9 pt, spacing 36 pt) the code's early return at
src/index.js line 386 yields `rowsPerSheet = 0` while the claimed formula
gives `floor(306 / 72) = 4`. -/
theorem C1_counterexample :
    (calculateLayout 300 36 4 4).rowsPerSheet ≠
      Int.floor ((4 * POINTS_PER_INCH - safeMarginPts * 2 + spacingPts) /
        ((36 : ℚ) + spacingPts)) := by
  with_unfolding_all decide

/-- C1 (amended): for every item width/height, sheet width, max length,
margin, and spacing (with itemWidth+spacing and itemHeight+spacing positive),
the Layout Calculator returns
`itemsPerRow = floor((sheetWidth - 2*margin + spacing) / (itemWidth + spacing))`,
`rowsPerSheet = floor((maxLength - 2*margin + spacing) / (itemHeight + spacing))`
and `itemsPerSheet = itemsPerRow * rowsPerSheet` PROVIDED the itemsPerRow
formula is at least 1; when that formula is below 1 it instead returns all
three fields equal to 0 (early return, src/index.js line 386). -/
theorem C1_layout_formulas (width height marginPts spacing sheetWidthPts maxHeightPts : ℚ)
    (hw : 0 < width + spacing) (hh : 0 < height + spacing) :
    (1 ≤ Int.floor ((sheetWidthPts - marginPts * 2 + spacing) / (width + spacing)) →
      layoutFrom width height marginPts spacing sheetWidthPts maxHeightPts =
        ⟨Int.floor ((sheetWidthPts - marginPts * 2 + spacing) / (width + spacing)),
          Int.floor ((maxHeightPts - marginPts * 2 + spacing) / (height + spacing)),
          Int.floor ((sheetWidthPts - marginPts * 2 + spacing) / (width + spacing)) *
            Int.floor ((maxHeightPts - marginPts * 2 + spacing) / (height + spacing))⟩) ∧
    (Int.floor ((sheetWidthPts - marginPts * 2 + spacing) / (width + spacing)) < 1 →
      layoutFrom width height marginPts spacing sheetWidthPts maxHeightPts = ⟨0, 0, 0⟩) := by
  unfold layoutFrom
  constructor
  · intro h1
    rw [if_neg (by omega)]
  · intro h1
    rw [if_pos h1]

/-- Witness for C1_layout_formulas: a 72 pt square item on a 4-inch sheet,
margin 9 pt, spacing 36 pt. -/
theorem C1_layout_formulas_witness :
    (1 ≤ Int.floor (((288 : ℚ) - 9 * 2 + 36) / (72 + 36)) →
      layoutFrom 72 72 9 36 288 288 =
        ⟨Int.floor (((288 : ℚ) - 9 * 2 + 36) / (72 + 36)),
          Int.floor (((288 : ℚ) - 9 * 2 + 36) / (72 + 36)),
          Int.floor (((288 : ℚ) - 9 * 2 + 36) / (72 + 36)) *
            Int.floor (((288 : ℚ) - 9 * 2 + 36) / (72 + 36))⟩) ∧
    (Int.floor (((288 : ℚ) - 9 * 2 + 36) / (72 + 36)) < 1 →
      layoutFrom 72 72 9 36 288 288 = ⟨0, 0, 0⟩) :=
  C1_layout_formulas 72 72 9 36 288 288 (by norm_num) (by norm_num)

/-! ## Claim C7: smart-fit orientation selection -/

/-- C7: under smart-fit, the rotated orientation is selected exactly when its
`logosPerSheet` is strictly greater than the upright orientation's; on ties
the result is not rotated (src/index.js lines 342-350). -/
theorem C7_smart_fit (logoWidth logoHeight gangWidth maxLength : ℚ) :
    ((chooseOrientation logoWidth logoHeight gangWidth maxLength).isRotated = true ↔
      (calculateLayout logoWidth logoHeight gangWidth maxLength).logosPerSheet <
        (calculateLayout logoHeight logoWidth gangWidth maxLength).logosPerSheet) ∧
    ((calculateLayout logoHeight logoWidth gangWidth maxLength).logosPerSheet =
        (calculateLayout logoWidth logoHeight gangWidth maxLength).logosPerSheet →
      (chooseOrientation logoWidth logoHeight gangWidth maxLength).isRotated = false) := by
  unfold chooseOrientation
  by_cases hc : (calculateLayout logoWidth logoHeight gangWidth maxLength).logosPerSheet <
      (calculateLayout logoHeight logoWidth gangWidth maxLength).logosPerSheet
  · rw [if_pos hc]
    exact ⟨iff_of_true rfl hc, fun he => absurd hc (by omega)⟩
  · rw [if_neg hc]
    exact ⟨iff_of_false (by simp) hc, fun _ => rfl⟩

/-- Witness for C7_smart_fit: a 72x144 pt item on a 4-inch sheet with 4-inch
max length (vertical fits 4 per sheet, horizontal 2, so rotated = true). -/
theorem C7_smart_fit_witness :
    ((chooseOrientation 72 144 4 4).isRotated = true ↔
      (calculateLayout 72 144 4 4).logosPerSheet <
        (calculateLayout 144 72 4 4).logosPerSheet) ∧
    ((calculateLayout 144 72 4 4).logosPerSheet =
        (calculateLayout 72 144 4 4).logosPerSheet →
      (chooseOrientation 72 144 4 4).isRotated = false) :=
  C7_smart_fit 72 144 4 4

/-! ## Claim C3: non-termination when an item is too tall -/

/-- C3: the spec requires the packing core to terminate within a number of
steps bounded by the requested quantity, raising `ItemTooLargeError` when
Pass 1 places zero instances on a fresh sheet.  The code has no such check:
for a 36x144 pt item with max length 2 inches (144 pt) on a 4-inch sheet,
`calculateLayout` reports `logosPerRow = 4` but `logosPerSheet = 0`, Pass 1
on a fresh sheet selects zero logos and leaves the remaining list unchanged,
so each iteration of the `while (remainingLogos.length > 0)` loop
(src/index.js line 422) produces an empty sheet and the loop never
terminates (model: every unit of fuel yields one more empty sheet). -/
theorem C3_nontermination :
    (pass1 288 [⟨0, 36, 144⟩] ((2 : ℚ) * POINTS_PER_INCH - safeMarginPts) (-1) 0).1 = 0 ∧
    List.drop (pass1 288 [⟨0, 36, 144⟩] ((2 : ℚ) * POINTS_PER_INCH - safeMarginPts) (-1) 0).1
      [(⟨0, 36, 144⟩ : Logo)] = [⟨0, 36, 144⟩] ∧
    sheetLoop 288 ((2 : ℚ) * POINTS_PER_INCH) 2 [⟨0, 36, 144⟩] = [⟨[], 1⟩, ⟨[], 1⟩] ∧
    (calculateLayout 36 144 4 2).logosPerRow = 4 ∧
    (calculateLayout 36 144 4 2).logosPerSheet = 0 := by
  refine ⟨?_, ?_, ?_, ?_, ?_⟩ <;> with_unfolding_all decide

/-! ## Claim C4: oversized items in the consolidated packer -/

/-- C4: for a 300x300 pt item (wider than the usable 4-inch sheet in both
orientations, `logosPerRow = 0`), the /merge handler does throw
("Logo too wide for sheet", src/index.js line 658), but the
/merge-consolidated packer has no such check: it places the two requested
instances at x = 9 pt, one per row (`logosInCurrentRow = 0` forces a new row
for every subsequent same-file logo), producing one 10-inch sheet whose
placements overflow the 288 pt sheet width — no error, nonzero sheets. -/
theorem C4_consolidated_oversize :
    (calculateLayout 300 300 4 10).logosPerRow = 0 ∧
    (chooseOrientation 300 300 4 10).layout.logosPerSheet = 0 ∧
    mergeHandler 300 300 false 4 10 2 = .error "Logo too wide for sheet" ∧
    mergeHandler 300 300 true 4 10 2 = .error "Logo too wide for sheet" ∧
    sheetLoop 288 720 2 [⟨0, 300, 300⟩, ⟨0, 300, 300⟩] =
      [⟨[⟨0, 9, 375⟩, ⟨0, 9, 39⟩], 10⟩] ∧
    (9 : ℚ) + 300 > 288 := by
  refine ⟨?_, ?_, ?_, ?_, ?_, ?_⟩
  · with_unfolding_all decide
  · with_unfolding_all decide
  · with_unfolding_all rfl
  · with_unfolding_all rfl
  · with_unfolding_all decide
  · norm_num

/-! ## Claim C5 counterexample: consolidated heights are not minimal -/

/-- C5 counterexample: a single 72x108 pt logo (1.5 inches tall) packed by
the consolidated packer on a 4-inch sheet with 4-inch max length yields one
sheet of height 3 inches (the cursor accounting of src/index.js line 473
charges spacing below the last row), while the smallest whole-inch height
accommodating its single row is 2 inches. -/
theorem C5_counterexample :
    ((sheetLoop 288 288 1 [⟨0, 72, 108⟩]).map SheetData.heightInch = [3]) ∧
    spec_minimalHeightInch 1 (108 + spacingPts) = 2 := by
  refine ⟨?_, ?_⟩ <;> with_unfolding_all decide

/-! ## Claim C2: single-file packing counts -/

/-- `Math.ceil(q / lps)` over the rationals agrees with the natural-number
ceiling division for `lps ≥ 1`. -/
theorem totalSheetsNeeded_eq {quantity logosPerSheet : ℕ} (h : 1 ≤ logosPerSheet) :
    totalSheetsNeeded quantity logosPerSheet =
      (quantity + logosPerSheet - 1) / logosPerSheet := by
  unfold totalSheetsNeeded
  have hQ : (0 : ℚ) < logosPerSheet := by exact_mod_cast h
  have hdm := Nat.div_add_mod (quantity + logosPerSheet - 1) logosPerSheet
  have hmlt : (quantity + logosPerSheet - 1) % logosPerSheet < logosPerSheet :=
    Nat.mod_lt _ (by omega)
  set k := (quantity + logosPerSheet - 1) / logosPerSheet with hk
  have h1 : quantity ≤ logosPerSheet * k := by omega
  have h2 : logosPerSheet * k < quantity + logosPerSheet := by omega
  have hceil : Int.ceil ((quantity : ℚ) / (logosPerSheet : ℚ)) = (k : ℤ) := by
    rw [Int.ceil_eq_iff]
    have h1Q : (quantity : ℚ) ≤ (logosPerSheet : ℚ) * k := by exact_mod_cast h1
    have h2Q : (logosPerSheet : ℚ) * k < (quantity : ℚ) + logosPerSheet := by
      exact_mod_cast h2
    constructor
    · rw [lt_div_iff₀ hQ]
      push_cast
      nlinarith
    · rw [div_le_iff₀ hQ]
      push_cast
      nlinarith
  rw [hceil, Int.toNat_natCast]

/-- Invariant of the /merge sheet loop: with `fuel` equal to the ceiling
division of the remaining quantity, every sheet but the last takes exactly
`logosPerSheet`, the last takes the remainder, and the total is conserved. -/
theorem mergeLoop_counts (logosPerSheet logosPerRow : ℕ) (lth : ℚ)
    (hlps : 1 ≤ logosPerSheet) :
    ∀ fuel remaining, 1 ≤ remaining →
      fuel = (remaining + logosPerSheet - 1) / logosPerSheet →
      (mergeLoop logosPerSheet logosPerRow lth fuel remaining).length = fuel ∧
      (∀ s ∈ (mergeLoop logosPerSheet logosPerRow lth fuel remaining).dropLast,
        s.logosOnThisSheet = logosPerSheet) ∧
      ((mergeLoop logosPerSheet logosPerRow lth fuel remaining).getLast?.map
          MergeSheet.logosOnThisSheet =
        some (if remaining % logosPerSheet = 0 then logosPerSheet
          else remaining % logosPerSheet)) ∧
      ((mergeLoop logosPerSheet logosPerRow lth fuel remaining).map
          MergeSheet.logosOnThisSheet).sum = remaining := by
  intro fuel
  induction fuel with
  | zero =>
    intro remaining hrem hfuel
    exfalso
    have hge : 1 ≤ (remaining + logosPerSheet - 1) / logosPerSheet :=
      (Nat.le_div_iff_mul_le (by omega)).mpr (by omega)
    omega
  | succ fuel ih =>
    intro remaining hrem hfuel
    have h0 : 0 < logosPerSheet := by omega
    rcases le_or_lt remaining logosPerSheet with hle | hlt
    · have hdiv1 : (remaining + logosPerSheet - 1) / logosPerSheet = 1 :=
        Nat.div_eq_of_lt_le (by omega) (by omega)
      have hfuel0 : fuel = 0 := by omega
      subst hfuel0
      have hmin : min remaining logosPerSheet = remaining := min_eq_left hle
      simp only [mergeLoop, hmin]
      refine ⟨rfl, by simp, ?_, by simp⟩
      have hifr : (if remaining % logosPerSheet = 0 then logosPerSheet
          else remaining % logosPerSheet) = remaining := by
        rcases eq_or_lt_of_le hle with heq | hltr
        · subst heq
          simp [Nat.mod_self]
        · rw [Nat.mod_eq_of_lt hltr, if_neg (by omega)]
      rw [hifr]
      simp
    · have e1 : remaining + logosPerSheet - 1 = (remaining - 1) + logosPerSheet := by
        omega
      have e2 : (remaining - logosPerSheet) + logosPerSheet - 1 = remaining - 1 := by
        omega
      have hfuel2 : fuel = ((remaining - logosPerSheet) + logosPerSheet - 1) /
          logosPerSheet := by
        rw [e1, Nat.add_div_right _ h0] at hfuel
        rw [e2]
        omega
      obtain ⟨ih1, ih2, ih3, ih4⟩ := ih (remaining - logosPerSheet) (by omega) hfuel2
      have hmin : min remaining logosPerSheet = logosPerSheet :=
        min_eq_right (Nat.le_of_lt hlt)
      have hfuelpos : 1 ≤ fuel := by
        rw [hfuel2, e2]
        exact (Nat.le_div_iff_mul_le h0).mpr (by omega)
      obtain ⟨t0, ts, ht⟩ : ∃ t0 ts,
          mergeLoop logosPerSheet logosPerRow lth fuel (remaining - logosPerSheet) =
            t0 :: ts := by
        cases hcase : mergeLoop logosPerSheet logosPerRow lth fuel
            (remaining - logosPerSheet) with
        | nil => rw [hcase] at ih1; simp at ih1; omega
        | cons t0 ts => exact ⟨t0, ts, rfl⟩
      simp only [mergeLoop, hmin]
      rw [ht] at ih1 ih2 ih3 ih4 ⊢
      refine ⟨by simpa using ih1, ?_, ?_, ?_⟩
      · intro s hs
        rcases (List.mem_cons).mp (by simpa using hs) with hs0 | hs1
        · rw [hs0]
        · exact ih2 s hs1
      · rw [List.getLast?_cons_cons]
        rw [Nat.mod_eq_sub_mod (Nat.le_of_lt hlt)]
        exact ih3
      · simp only [List.map_cons, List.sum_cons] at ih4 ⊢
        omega

/-- C2: for quantity ≥ 1 and a layout with itemsPerSheet ≥ 1, the /merge
handler produces exactly `ceil(quantity / itemsPerSheet)` sheets; each sheet
but the last holds exactly `itemsPerSheet` placements, the last holds
`quantity mod itemsPerSheet` (or a full `itemsPerSheet` when the division is
exact), and the placement total equals the quantity. -/
theorem C2_single_file_packing (quantity logosPerSheet logosPerRow : ℕ)
    (logoTotalHeight : ℚ) (hq : 1 ≤ quantity) (hlps : 1 ≤ logosPerSheet) :
    (mergeLoop logosPerSheet logosPerRow logoTotalHeight
        (totalSheetsNeeded quantity logosPerSheet) quantity).length =
      totalSheetsNeeded quantity logosPerSheet ∧
    (∀ s ∈ (mergeLoop logosPerSheet logosPerRow logoTotalHeight
        (totalSheetsNeeded quantity logosPerSheet) quantity).dropLast,
      s.logosOnThisSheet = logosPerSheet) ∧
    ((mergeLoop logosPerSheet logosPerRow logoTotalHeight
        (totalSheetsNeeded quantity logosPerSheet) quantity).getLast?.map
        MergeSheet.logosOnThisSheet =
      some (if quantity % logosPerSheet = 0 then logosPerSheet
        else quantity % logosPerSheet)) ∧
    ((mergeLoop logosPerSheet logosPerRow logoTotalHeight
        (totalSheetsNeeded quantity logosPerSheet) quantity).map
        MergeSheet.logosOnThisSheet).sum = quantity :=
  mergeLoop_counts logosPerSheet logosPerRow logoTotalHeight hlps
    (totalSheetsNeeded quantity logosPerSheet) quantity hq
    (totalSheetsNeeded_eq hlps)

/-- Witness for C2_single_file_packing: quantity 5, itemsPerSheet 4 (two
sheets: 4 then 1). -/
theorem C2_single_file_packing_witness :
    (mergeLoop 4 2 108 (totalSheetsNeeded 5 4) 5).length = totalSheetsNeeded 5 4 ∧
    (∀ s ∈ (mergeLoop 4 2 108 (totalSheetsNeeded 5 4) 5).dropLast,
      s.logosOnThisSheet = 4) ∧
    ((mergeLoop 4 2 108 (totalSheetsNeeded 5 4) 5).getLast?.map
        MergeSheet.logosOnThisSheet =
      some (if 5 % 4 = 0 then 4 else 5 % 4)) ∧
    ((mergeLoop 4 2 108 (totalSheetsNeeded 5 4) 5).map
        MergeSheet.logosOnThisSheet).sum = 5 :=
  C2_single_file_packing 5 4 2 108 (by norm_num) (by norm_num)

/-! ## Claim C6: file contiguity of Pass 2 -/

/-- The Pass-2 cursor never rises: every emitted placement sits at or below
the starting cursor. -/
theorem pass2_y_le (W : ℚ) :
    ∀ (logos : List Logo) (yc : ℚ) (cf rl : ℤ),
      (∀ lg ∈ logos, 0 ≤ lg.logoHeight) →
      ∀ p ∈ pass2 W logos yc cf rl, p.y ≤ yc := by
  intro logos
  induction logos with
  | nil => intro yc cf rl _ p hp; simp [pass2] at hp
  | cons logo rest ih =>
    intro yc cf rl hpos p hp
    have hh : (0 : ℚ) ≤ logo.logoHeight := hpos logo (by simp)
    have hrest : ∀ lg ∈ rest, 0 ≤ lg.logoHeight := fun lg h => hpos lg (by simp [h])
    have hlth : (0 : ℚ) < logo.logoHeight + spacingPts := by
      unfold spacingPts; linarith
    simp only [pass2] at hp
    by_cases hne : (logo.fileIndex : ℤ) ≠ cf
    · rw [if_pos hne] at hp
      rcases List.mem_cons.mp hp with rfl | hp'
      · simp only []
        linarith
      · have := ih (yc - (logo.logoHeight + spacingPts)) (logo.fileIndex : ℤ) 1
          hrest p hp'
        linarith
    · rw [if_neg hne] at hp
      by_cases hrow : logosInRowFor W (logo.logoWidth + spacingPts) ≤ rl
      · rw [if_pos hrow] at hp
        rcases List.mem_cons.mp hp with rfl | hp'
        · simp only []
          linarith
        · have := ih (yc - (logo.logoHeight + spacingPts)) cf 1 hrest p hp'
          linarith
      · rw [if_neg hrow] at hp
        rcases List.mem_cons.mp hp with rfl | hp'
        · exact le_rfl
        · exact ih yc cf (rl + 1) hrest p hp'

/-- A Pass-2 placement whose file differs from the current file index sits
strictly below the current cursor (the file switch forced a new row). -/
theorem pass2_y_lt (W : ℚ) :
    ∀ (logos : List Logo) (yc : ℚ) (cf rl : ℤ),
      (∀ lg ∈ logos, 0 ≤ lg.logoHeight) →
      ∀ p ∈ pass2 W logos yc cf rl, (p.fileIndex : ℤ) ≠ cf → p.y < yc := by
  intro logos
  induction logos with
  | nil => intro yc cf rl _ p hp; simp [pass2] at hp
  | cons logo rest ih =>
    intro yc cf rl hpos p hp hpf
    have hh : (0 : ℚ) ≤ logo.logoHeight := hpos logo (by simp)
    have hrest : ∀ lg ∈ rest, 0 ≤ lg.logoHeight := fun lg h => hpos lg (by simp [h])
    have hlth : (0 : ℚ) < logo.logoHeight + spacingPts := by
      unfold spacingPts; linarith
    simp only [pass2] at hp
    by_cases hne : (logo.fileIndex : ℤ) ≠ cf
    · rw [if_pos hne] at hp
      rcases List.mem_cons.mp hp with rfl | hp'
      · simp only []
        linarith
      · have := pass2_y_le W rest (yc - (logo.logoHeight + spacingPts))
          (logo.fileIndex : ℤ) 1 hrest p hp'
        linarith
    · rw [if_neg hne] at hp
      by_cases hrow : logosInRowFor W (logo.logoWidth + spacingPts) ≤ rl
      · rw [if_pos hrow] at hp
        rcases List.mem_cons.mp hp with rfl | hp'
        · exact absurd hpf hne
        · have := pass2_y_le W rest (yc - (logo.logoHeight + spacingPts)) cf 1
            hrest p hp'
          linarith
      · rw [if_neg hrow] at hp
        rcases List.mem_cons.mp hp with rfl | hp'
        · exact absurd hpf hne
        · have := ih yc cf (rl + 1) hrest p hp' hpf
          linarith

/-- C6: in consolidated mode, two placements on the same sheet belonging to
different source files are never in the same row — the later one sits
strictly lower (Pass 2, src/index.js lines 488-535; the same-file/new-file
branching at lines 495-509 forces a strict cursor drop at every file
switch). -/
theorem C6_file_contiguity (W : ℚ) (logos : List Logo) (yc : ℚ) (cf rl : ℤ)
    (hpos : ∀ lg ∈ logos, 0 ≤ lg.logoHeight) :
    (pass2 W logos yc cf rl).Pairwise
      (fun p q => p.fileIndex ≠ q.fileIndex → q.y < p.y) := by
  induction logos generalizing yc cf rl with
  | nil => simp [pass2]
  | cons logo rest ih =>
    have hh : (0 : ℚ) ≤ logo.logoHeight := hpos logo (by simp)
    have hrest : ∀ lg ∈ rest, 0 ≤ lg.logoHeight := fun lg h => hpos lg (by simp [h])
    have hlth : (0 : ℚ) < logo.logoHeight + spacingPts := by
      unfold spacingPts; linarith
    simp only [pass2]
    by_cases hne : (logo.fileIndex : ℤ) ≠ cf
    · rw [if_pos hne]
      refine List.pairwise_cons.mpr
        ⟨?_, ih (yc - (logo.logoHeight + spacingPts)) (logo.fileIndex : ℤ) 1 hrest⟩
      intro q hq hneq
      have hQ : (q.fileIndex : ℤ) ≠ (logo.fileIndex : ℤ) := by
        intro h
        exact hneq (by exact_mod_cast h.symm)
      exact pass2_y_lt W rest (yc - (logo.logoHeight + spacingPts))
        (logo.fileIndex : ℤ) 1 hrest q hq hQ
    · rw [if_neg hne]
      push_neg at hne
      by_cases hrow : logosInRowFor W (logo.logoWidth + spacingPts) ≤ rl
      · rw [if_pos hrow]
        refine List.pairwise_cons.mpr
          ⟨?_, ih (yc - (logo.logoHeight + spacingPts)) cf 1 hrest⟩
        intro q hq hneq
        have hQ : (q.fileIndex : ℤ) ≠ cf := by
          rw [← hne]
          intro h
          exact hneq (by exact_mod_cast h.symm)
        exact pass2_y_lt W rest (yc - (logo.logoHeight + spacingPts)) cf 1
          hrest q hq hQ
      · rw [if_neg hrow]
        refine List.pairwise_cons.mpr ⟨?_, ih yc cf (rl + 1) hrest⟩
        intro q hq hneq
        have hQ : (q.fileIndex : ℤ) ≠ cf := by
          rw [← hne]
          intro h
          exact hneq (by exact_mod_cast h.symm)
        exact pass2_y_lt W rest yc cf (rl + 1) hrest q hq hQ

/-- Witness for C6_file_contiguity: two files, one 72x72 pt logo each, on a
4-inch sheet. -/
theorem C6_file_contiguity_witness :
    (pass2 288 [⟨0, 72, 72⟩, ⟨1, 72, 72⟩] 207 (-1) 0).Pairwise
      (fun p q => p.fileIndex ≠ q.fileIndex → q.y < p.y) :=
  C6_file_contiguity 288 [⟨0, 72, 72⟩, ⟨1, 72, 72⟩] 207 (-1) 0
    (by with_unfolding_all decide)

/-! ## Claim C10: consolidated conservation -/

/-- Pass 2 emits exactly one placement per logo it is given (its loop has no
break, src/index.js lines 488-535). -/
theorem pass2_length (W : ℚ) :
    ∀ (logos : List Logo) (yc : ℚ) (cf rl : ℤ),
      (pass2 W logos yc cf rl).length = logos.length := by
  intro logos
  induction logos with
  | nil => intro yc cf rl; simp [pass2]
  | cons logo rest ih =>
    intro yc cf rl
    simp only [pass2]
    split_ifs <;> simp [ih]

/-- Pass 1 on a fresh sheet selects at least one logo whenever the first
logo's row fits under the maximum height (the first logo always takes the
new-file branch because the current file index starts at -1). -/
theorem pass1_cons_pos (W : ℚ) (logo : Logo) (rest : List Logo) (yc : ℚ)
    (hfit : ¬(yc - (logo.logoHeight + spacingPts) < safeMarginPts)) :
    1 ≤ (pass1 W (logo :: rest) yc (-1) 0).1 := by
  have hc : (0 : ℤ) ≤ (logo.fileIndex : ℤ) := Int.natCast_nonneg _
  have hne : (logo.fileIndex : ℤ) ≠ -1 := by omega
  simp only [pass1, if_pos hne, if_neg hfit]
  omega

/-- Loop invariant of the consolidated while loop, for inputs where every
logo's row fits a fresh sheet: the Pass-1 selections (take) and removals
(drop) partition the remaining sequence, every sheet receives at least one
logo, and Pass 2 emits exactly the Pass-1 selection on every sheet. -/
theorem sheetSegments_spec (W M : ℚ) :
    ∀ (fuel : ℕ) (remaining : List Logo),
      remaining.length ≤ fuel →
      (∀ lg ∈ remaining, lg.logoHeight + spacingPts ≤ M - 2 * safeMarginPts) →
      (sheetSegments W M fuel remaining).flatten = remaining ∧
      (∀ seg ∈ sheetSegments W M fuel remaining, seg ≠ []) ∧
      ((sheetLoop W M fuel remaining).map fun sd => sd.placements.length) =
        (sheetSegments W M fuel remaining).map List.length ∧
      (∀ sd ∈ sheetLoop W M fuel remaining, sd.placements ≠ []) := by
  intro fuel
  induction fuel with
  | zero =>
    intro remaining hlen hfit
    have hnil : remaining = [] := List.length_eq_zero.mp (Nat.le_zero.mp hlen)
    subst hnil
    simp [sheetSegments, sheetLoop]
  | succ fuel ih =>
    intro remaining hlen hfit
    cases remaining with
    | nil => simp [sheetSegments, sheetLoop]
    | cons logo rest =>
      have hfit0 : logo.logoHeight + spacingPts ≤ M - 2 * safeMarginPts :=
        hfit logo (by simp)
      have hnot : ¬((M - safeMarginPts) - (logo.logoHeight + spacingPts) <
          safeMarginPts) := by
        push_neg
        linarith
      have hkpos : 1 ≤ (pass1 W (logo :: rest) (M - safeMarginPts) (-1) 0).1 :=
        pass1_cons_pos W logo rest (M - safeMarginPts) hnot
      set k := (pass1 W (logo :: rest) (M - safeMarginPts) (-1) 0).1 with hk
      have hdroplen : ((logo :: rest).drop k).length ≤ fuel := by
        rw [List.length_drop]
        simp only [List.length_cons] at hlen ⊢
        omega
      have hdropfit : ∀ lg ∈ (logo :: rest).drop k,
          lg.logoHeight + spacingPts ≤ M - 2 * safeMarginPts :=
        fun lg h => hfit lg (List.mem_of_mem_drop h)
      obtain ⟨ih1, ih2, ih3, ih4⟩ := ih ((logo :: rest).drop k) hdroplen hdropfit
      have htake_ne : (logo :: rest).take k ≠ [] := by
        intro h
        have hlen0 := congrArg List.length h
        rw [List.length_take] at hlen0
        simp only [List.length_cons, List.length_nil] at hlen0
        omega
      refine ⟨?_, ?_, ?_, ?_⟩
      · show ((logo :: rest).take k ::
            sheetSegments W M fuel ((logo :: rest).drop k)).flatten = logo :: rest
        rw [List.flatten_cons, ih1, List.take_append_drop]
      · intro seg hseg
        rcases List.mem_cons.mp hseg with rfl | hseg'
        · exact htake_ne
        · exact ih2 seg hseg'
      · show _ :: ((sheetLoop W M fuel ((logo :: rest).drop k)).map
            fun sd => sd.placements.length) = _ :: _
        rw [ih3]
        congr 1
        exact pass2_length W ((logo :: rest).take k) _ (-1) 0
      · intro sd hsd
        rcases List.mem_cons.mp hsd with rfl | hsd'
        · intro hnil
          have hl := congrArg List.length hnil
          simp only [List.length_nil] at hl
          rw [pass2_length] at hl
          rw [← hk] at hl
          exact htake_ne (List.length_eq_zero.mp hl)
        · exact ih4 sd hsd'

/-- The flattened `allLogos` list has one entry per requested unit. -/
theorem allLogosFrom_length (data : List LogoData) :
    ∀ i, (allLogosFrom i data).length = (data.map LogoData.quantity).sum := by
  induction data with
  | nil => intro i; simp [allLogosFrom]
  | cons d rest ih =>
    intro i
    simp [allLogosFrom, ih (i + 1)]

/-- Every logo produced from position `i` onward has file index at least
`i`. -/
theorem allLogosFrom_fileIndex_ge (data : List LogoData) :
    ∀ i, ∀ lg ∈ allLogosFrom i data, i ≤ lg.fileIndex := by
  induction data with
  | nil => intro i lg h; simp [allLogosFrom] at h
  | cons d rest ih =>
    intro i lg h
    rw [allLogosFrom] at h
    rcases List.mem_append.mp h with hrep | hrest
    · rw [List.eq_of_mem_replicate hrep]
    · exact Nat.le_of_succ_le (ih (i + 1) lg hrest)

/-- The `allLogos` flattening is already sorted by `fileIndex`, so the stable
`Array.sort` at src/index.js line 409 is the identity on it. -/
theorem allLogos_sortedByFile (data : List LogoData) :
    ∀ i, (allLogosFrom i data).Pairwise (fun a b => a.fileIndex ≤ b.fileIndex) := by
  induction data with
  | nil => intro i; simp [allLogosFrom]
  | cons d rest ih =>
    intro i
    simp only [allLogosFrom]
    refine List.pairwise_append.mpr ⟨?_, ih (i + 1), ?_⟩
    · exact List.pairwise_replicate.mpr (Or.inr le_rfl)
    · intro a ha b hb
      rw [List.eq_of_mem_replicate ha]
      exact Nat.le_of_succ_le (allLogosFrom_fileIndex_ge rest (i + 1) b hb)

/-- C10: in consolidated mode, when every oriented item fits at least one
per row and a single row fits the maximum length, the packer places each
requested instance exactly once: the Pass-1 selections partition the
flattened sequence, Pass 2 emits exactly the selected instances per sheet,
the total placement count equals the sum of requested quantities, and every
produced sheet holds at least one placement. -/
theorem C10_consolidated_conservation (data : List LogoData) (W M : ℚ)
    (hfit : ∀ lg ∈ allLogos data,
      lg.logoHeight + spacingPts ≤ M - 2 * safeMarginPts)
    (hrow : ∀ lg ∈ allLogos data, 1 ≤ logosInRowFor W (lg.logoWidth + spacingPts)) :
    (sheetSegments W M (allLogos data).length (allLogos data)).flatten =
      allLogos data ∧
    (∀ seg ∈ sheetSegments W M (allLogos data).length (allLogos data),
      seg ≠ []) ∧
    ((sheetLoop W M (allLogos data).length (allLogos data)).map
        fun sd => sd.placements.length) =
      (sheetSegments W M (allLogos data).length (allLogos data)).map
        List.length ∧
    ((sheetLoop W M (allLogos data).length (allLogos data)).map
        fun sd => sd.placements.length).sum = (data.map LogoData.quantity).sum ∧
    (∀ sd ∈ sheetLoop W M (allLogos data).length (allLogos data),
      sd.placements ≠ []) := by
  obtain ⟨h1, h2, h3, h4⟩ :=
    sheetSegments_spec W M (allLogos data).length (allLogos data) le_rfl hfit
  refine ⟨h1, h2, h3, ?_, h4⟩
  rw [h3]
  have hlen : ((sheetSegments W M (allLogos data).length
      (allLogos data)).map List.length).sum =
      (sheetSegments W M (allLogos data).length (allLogos data)).flatten.length := by
    rw [List.length_flatten]
  rw [hlen, h1]
  exact allLogosFrom_length data 0

/-- Witness for C10_consolidated_conservation: two files (quantities 3 and
2) of 72x72 pt logos on a 4-inch sheet with 4-inch max length. -/
theorem C10_consolidated_conservation_witness :
    (sheetSegments 288 288 (allLogos [⟨3, 72, 72⟩, ⟨2, 72, 72⟩]).length
        (allLogos [⟨3, 72, 72⟩, ⟨2, 72, 72⟩])).flatten =
      allLogos [⟨3, 72, 72⟩, ⟨2, 72, 72⟩] ∧
    (∀ seg ∈ sheetSegments 288 288 (allLogos [⟨3, 72, 72⟩, ⟨2, 72, 72⟩]).length
        (allLogos [⟨3, 72, 72⟩, ⟨2, 72, 72⟩]), seg ≠ []) ∧
    ((sheetLoop 288 288 (allLogos [⟨3, 72, 72⟩, ⟨2, 72, 72⟩]).length
        (allLogos [⟨3, 72, 72⟩, ⟨2, 72, 72⟩])).map
        fun sd => sd.placements.length) =
      (sheetSegments 288 288 (allLogos [⟨3, 72, 72⟩, ⟨2, 72, 72⟩]).length
        (allLogos [⟨3, 72, 72⟩, ⟨2, 72, 72⟩])).map List.length ∧
    ((sheetLoop 288 288 (allLogos [⟨3, 72, 72⟩, ⟨2, 72, 72⟩]).length
        (allLogos [⟨3, 72, 72⟩, ⟨2, 72, 72⟩])).map
        fun sd => sd.placements.length).sum =
      ([⟨3, 72, 72⟩, ⟨2, 72, 72⟩].map LogoData.quantity).sum ∧
    (∀ sd ∈ sheetLoop 288 288 (allLogos [⟨3, 72, 72⟩, ⟨2, 72, 72⟩]).length
        (allLogos [⟨3, 72, 72⟩, ⟨2, 72, 72⟩]), sd.placements ≠ []) :=
  C10_consolidated_conservation [⟨3, 72, 72⟩, ⟨2, 72, 72⟩] 288 288
    (by with_unfolding_all decide) (by with_unfolding_all decide)

/-! ## Claim C5: sheet heights -/

/-- Rounding a points height up to whole inches stays below a whole-inch
bound. -/
theorem ceil_div_ppi_le (x : ℚ) (M : ℕ) (h : x ≤ (M : ℚ) * POINTS_PER_INCH) :
    Int.ceil (x / POINTS_PER_INCH) ≤ (M : ℤ) := by
  rw [Int.ceil_le,
    div_le_iff₀ (by norm_num [POINTS_PER_INCH] : (0 : ℚ) < POINTS_PER_INCH)]
  push_cast
  linarith

/-- Heights of /merge sheets (src/index.js lines 692-716): each sheet's
`finalHeightInch` is the smallest whole-inch height accommodating exactly
the rows it uses, and never exceeds the configured maximum length. -/
theorem mergeLoop_heights (logosPerSheet logosPerRow : ℕ) (lth : ℚ) (maxLength : ℕ)
    (hlth : 0 < lth) (hlpr : 1 ≤ logosPerRow)
    (hcap : (logosPerSheet : ℤ) ≤ (logosPerRow : ℤ) *
      Int.floor (((maxLength : ℚ) * POINTS_PER_INCH - safeMarginPts * 2 + spacingPts) /
        lth)) :
    ∀ (fuel remaining : ℕ),
      ∀ s ∈ mergeLoop logosPerSheet logosPerRow lth fuel remaining,
        ((s.finalHeightInch : ℚ) - 1) * POINTS_PER_INCH <
          (s.usedRows : ℚ) * lth + safeMarginPts * 2 - spacingPts ∧
        (s.usedRows : ℚ) * lth + safeMarginPts * 2 - spacingPts ≤
          (s.finalHeightInch : ℚ) * POINTS_PER_INCH ∧
        s.finalHeightInch ≤ maxLength := by
  have h72 : (0 : ℚ) < POINTS_PER_INCH := by norm_num [POINTS_PER_INCH]
  set A := (((maxLength : ℚ) * POINTS_PER_INCH - safeMarginPts * 2 + spacingPts) / lth)
    with hA
  have hAnn : 0 ≤ Int.floor A := by
    rw [Int.le_floor, hA]
    push_cast
    rw [le_div_iff₀ hlth]
    have hM0 : (0 : ℚ) ≤ (maxLength : ℚ) := Nat.cast_nonneg _
    simp only [safeMarginPts, POINTS_PER_INCH, spacingPts]
    linarith
  intro fuel
  induction fuel with
  | zero => intro remaining s hs; simp [mergeLoop] at hs
  | succ fuel ih =>
    intro remaining s hs
    simp only [mergeLoop] at hs
    rcases List.mem_cons.mp hs with rfl | hs'
    · set l := min remaining logosPerSheet with hl
      set r := natCeilDiv l logosPerRow with hr
      set u := (r : ℚ) * lth + safeMarginPts * 2 - spacingPts with hu
      set I := Int.ceil (u / POINTS_PER_INCH) with hI
      have hHI : Int.ceil (((I : ℚ) * POINTS_PER_INCH) / POINTS_PER_INCH) = I := by
        rw [mul_div_cancel_right₀ _ (ne_of_gt h72)]
        exact Int.ceil_intCast I
      have hlow : ((I : ℚ) - 1) * POINTS_PER_INCH < u := by
        have h1 : (I : ℚ) < u / POINTS_PER_INCH + 1 := Int.ceil_lt_add_one _
        have h2 : (I : ℚ) - 1 < u / POINTS_PER_INCH := by linarith
        rw [lt_div_iff₀ h72] at h2
        linarith
      have hhigh : u ≤ (I : ℚ) * POINTS_PER_INCH := by
        have h1 : u / POINTS_PER_INCH ≤ (I : ℚ) := Int.le_ceil _
        rw [div_le_iff₀ h72] at h1
        linarith
      have humax : u ≤ (maxLength : ℚ) * POINTS_PER_INCH := by
        set R := (Int.floor A).toNat with hR
        have hRZ : (R : ℤ) = Int.floor A := Int.toNat_of_nonneg hAnn
        have hcapN : logosPerSheet ≤ logosPerRow * R := by
          have hc : (logosPerSheet : ℤ) ≤ (logosPerRow : ℤ) * (R : ℤ) := by
            rw [hRZ]; exact hcap
          exact_mod_cast hc
        have hlle : l ≤ logosPerSheet := min_le_right _ _
        have hrR : r ≤ R := by
          have h1 : l + logosPerRow - 1 ≤ logosPerRow * R + (logosPerRow - 1) := by
            omega
          have h2 : r ≤ (logosPerRow * R + (logosPerRow - 1)) / logosPerRow := by
            rw [hr]
            unfold natCeilDiv
            exact Nat.div_le_div_right h1
          rwa [Nat.mul_add_div (by omega), Nat.div_eq_of_lt (by omega),
            Nat.add_zero] at h2
        have hrlth : (r : ℚ) * lth ≤ (R : ℚ) * lth :=
          mul_le_mul_of_nonneg_right (by exact_mod_cast hrR) (le_of_lt hlth)
        have hRA : (R : ℚ) ≤ A := by
          have hfl := Int.floor_le A
          rw [← hRZ] at hfl
          exact_mod_cast hfl
        have hRlA : (R : ℚ) * lth ≤ A * lth :=
          mul_le_mul_of_nonneg_right hRA (le_of_lt hlth)
        have hAl : A * lth =
            (maxLength : ℚ) * POINTS_PER_INCH - safeMarginPts * 2 + spacingPts := by
          rw [hA]
          exact div_mul_cancel₀ _ (ne_of_gt hlth)
        rw [hu]
        linarith
      have hbound : I ≤ (maxLength : ℤ) := by
        rw [hI]
        exact ceil_div_ppi_le u maxLength humax
      refine ⟨?_, ?_, ?_⟩ <;> rw [hHI]
      · exact hlow
      · exact hhigh
      · exact hbound
    · exact ih (remaining - min remaining logosPerSheet) s hs'

/-- Pass 1 never lowers the cursor below the margin: every subtraction is
guarded by the room check at src/index.js lines 445/459. -/
theorem pass1_snd_ge (W : ℚ) :
    ∀ (logos : List Logo) (yc : ℚ) (cf rl : ℤ),
      safeMarginPts ≤ yc → safeMarginPts ≤ (pass1 W logos yc cf rl).2 := by
  intro logos
  induction logos with
  | nil => intro yc cf rl h; simpa [pass1] using h
  | cons logo rest ih =>
    intro yc cf rl h
    simp only [pass1]
    by_cases hne : (logo.fileIndex : ℤ) ≠ cf
    · rw [if_pos hne]
      by_cases hbr : yc - (logo.logoHeight + spacingPts) < safeMarginPts
      · rw [if_pos hbr]
        exact h
      · rw [if_neg hbr]
        push_neg at hbr
        exact ih (yc - (logo.logoHeight + spacingPts)) (logo.fileIndex : ℤ) 1 hbr
    · rw [if_neg hne]
      by_cases hrow : logosInRowFor W (logo.logoWidth + spacingPts) ≤ rl
      · rw [if_pos hrow]
        by_cases hbr : yc - (logo.logoHeight + spacingPts) < safeMarginPts
        · rw [if_pos hbr]
          exact h
        · rw [if_neg hbr]
          push_neg at hbr
          exact ih (yc - (logo.logoHeight + spacingPts)) cf 1 hbr
      · rw [if_neg hrow]
        exact ih yc cf (rl + 1) h

/-- Heights of consolidated sheets never exceed the configured maximum
length (the cursor stays at or above the margin, so
`actualHeightPts ≤ maxLengthPts`, src/index.js lines 427-474). -/
theorem sheetLoop_height_le (W : ℚ) (maxLength : ℕ) (hM : 1 ≤ maxLength) :
    ∀ (fuel : ℕ) (logos : List Logo),
      ∀ sd ∈ sheetLoop W ((maxLength : ℚ) * POINTS_PER_INCH) fuel logos,
        sd.heightInch ≤ maxLength := by
  intro fuel
  induction fuel with
  | zero => intro logos sd h; simp [sheetLoop] at h
  | succ fuel ih =>
    intro logos sd h
    cases logos with
    | nil => simp [sheetLoop] at h
    | cons logo rest =>
      simp only [sheetLoop] at h
      rcases List.mem_cons.mp h with rfl | h'
      · have h9 : safeMarginPts ≤ (pass1 W (logo :: rest)
            ((maxLength : ℚ) * POINTS_PER_INCH - safeMarginPts) (-1) 0).2 := by
          apply pass1_snd_ge
          have hM1 : (1 : ℚ) ≤ (maxLength : ℚ) := by exact_mod_cast hM
          simp only [safeMarginPts, POINTS_PER_INCH]
          linarith
        exact ceil_div_ppi_le _ maxLength (by linarith)
      · exact ih _ sd h'

/-- C5 (amended): every /merge sheet's height is the smallest whole-inch
value accommodating exactly the rows it holds and is at most the configured
maximum; every consolidated sheet's height is at most the configured
maximum, but it is computed from the cursor with spacing charged below the
last row, so it can exceed the minimal accommodating height by up to one
spacing. -/
theorem C5_heights_amended (logoWidth logoHeight : ℚ) (rotate : Bool)
    (gangWidth maxLength quantity : ℕ) (sheets : List MergeSheet)
    (hW : 0 ≤ logoWidth) (hH : 0 ≤ logoHeight) (hM : 1 ≤ maxLength)
    (hok : mergeHandler logoWidth logoHeight rotate gangWidth maxLength quantity =
      .ok sheets)
    (Wc : ℚ) (fuel : ℕ) (logos : List Logo) :
    (∀ s ∈ sheets,
      ((s.finalHeightInch : ℚ) - 1) * POINTS_PER_INCH <
        (s.usedRows : ℚ) * ((if rotate then logoWidth else logoHeight) + spacingPts) +
          safeMarginPts * 2 - spacingPts ∧
      (s.usedRows : ℚ) * ((if rotate then logoWidth else logoHeight) + spacingPts) +
          safeMarginPts * 2 - spacingPts ≤
        (s.finalHeightInch : ℚ) * POINTS_PER_INCH ∧
      s.finalHeightInch ≤ maxLength) ∧
    (∀ sd ∈ sheetLoop Wc ((maxLength : ℚ) * POINTS_PER_INCH) fuel logos,
      sd.heightInch ≤ maxLength) := by
  constructor
  · by_cases hq : quantity = 0
    · simp only [mergeHandler, if_pos hq] at hok
      exact Except.noConfusion hok
    · simp only [mergeHandler, if_neg hq] at hok
      by_cases hlpr : Int.floor (((gangWidth : ℚ) * POINTS_PER_INCH -
          safeMarginPts * 2 + spacingPts) /
          ((if rotate then logoHeight else logoWidth) + spacingPts)) < 1
      · rw [if_pos hlpr] at hok
        simp at hok
      · rw [if_neg hlpr] at hok
        simp only [Except.ok.injEq] at hok
        subst hok
        have h0le : (0 : ℚ) ≤ if rotate then logoWidth else logoHeight := by
          cases rotate <;> simpa using (by assumption : _)
        have hlth : (0 : ℚ) < (if rotate then logoWidth else logoHeight) +
            spacingPts := by
          simp only [spacingPts]
          linarith
        have hR0 : 0 ≤ Int.floor (((maxLength : ℚ) * POINTS_PER_INCH -
            safeMarginPts * 2 + spacingPts) /
            ((if rotate then logoWidth else logoHeight) + spacingPts)) := by
          rw [Int.le_floor]
          push_cast
          rw [le_div_iff₀ hlth]
          have hM0 : (0 : ℚ) ≤ (maxLength : ℚ) := Nat.cast_nonneg _
          simp only [safeMarginPts, POINTS_PER_INCH, spacingPts]
          linarith
        intro s hs
        refine mergeLoop_heights _ _ _ maxLength hlth ?_ ?_ _ _ s hs
        · omega
        · set P := Int.floor (((gangWidth : ℚ) * POINTS_PER_INCH -
            safeMarginPts * 2 + spacingPts) /
            ((if rotate then logoHeight else logoWidth) + spacingPts)) with hP
          set R := Int.floor (((maxLength : ℚ) * POINTS_PER_INCH -
            safeMarginPts * 2 + spacingPts) /
            ((if rotate then logoWidth else logoHeight) + spacingPts)) with hR
          have hP1 : 1 ≤ P := by omega
          have hPR : ((P * R).toNat : ℤ) = P * R :=
            Int.toNat_of_nonneg (mul_nonneg (by omega) hR0)
          have hPn : (P.toNat : ℤ) = P := Int.toNat_of_nonneg (by omega)
          rw [hPR, hPn]
  · intro sd hsd
    exact sheetLoop_height_le Wc maxLength hM fuel logos sd hsd

/-- Witness for C5_heights_amended: a 72x72 pt logo, quantity 5, 4-inch
sheet, 4-inch max length for /merge (sheets 4+1: heights 3 and 2 inches);
one 72x108 pt logo for the consolidated part. -/
theorem C5_heights_amended_witness :
    (∀ s ∈ [(⟨4, 2, 3⟩ : MergeSheet), ⟨1, 1, 2⟩],
      ((s.finalHeightInch : ℚ) - 1) * POINTS_PER_INCH <
        (s.usedRows : ℚ) * ((if false then (72 : ℚ) else 72) + spacingPts) +
          safeMarginPts * 2 - spacingPts ∧
      (s.usedRows : ℚ) * ((if false then (72 : ℚ) else 72) + spacingPts) +
          safeMarginPts * 2 - spacingPts ≤
        (s.finalHeightInch : ℚ) * POINTS_PER_INCH ∧
      s.finalHeightInch ≤ (4 : ℕ)) ∧
    (∀ sd ∈ sheetLoop 288 (((4 : ℕ) : ℚ) * POINTS_PER_INCH) 1 [⟨0, 72, 108⟩],
      sd.heightInch ≤ (4 : ℕ)) :=
  C5_heights_amended 72 72 false 4 4 5 [⟨4, 2, 3⟩, ⟨1, 1, 2⟩]
    (by norm_num) (by norm_num) (by norm_num) (by with_unfolding_all rfl)
    288 1 [⟨0, 72, 108⟩]

/-! ## Claim C8: cost calculator tiers -/

/-- An absent key looks up to `undefined` (`none`). -/
theorem lookup_eq_none_of_not_mem (T : List (ℤ × ℚ)) (k : ℤ)
    (h : k ∉ T.map Prod.fst) : T.lookup k = none := by
  induction T with
  | nil => rfl
  | cons p rest ih =>
    obtain ⟨k0, v0⟩ := p
    simp only [List.map_cons, List.mem_cons, not_or] at h
    rw [List.lookup_cons, beq_false_of_ne h.1]
    exact ih h.2

/-- With distinct keys (JS object semantics), a present key looks up to its
value. -/
theorem lookup_of_mem_nodup (T : List (ℤ × ℚ)) (k : ℤ) (v : ℚ)
    (hnd : (T.map Prod.fst).Nodup) (h : (k, v) ∈ T) : T.lookup k = some v := by
  induction T with
  | nil => simp at h
  | cons p rest ih =>
    obtain ⟨k0, v0⟩ := p
    simp only [List.map_cons, List.nodup_cons] at hnd
    rcases List.mem_cons.mp h with heq | hmem
    · obtain ⟨rfl, rfl⟩ := Prod.mk.injEq .. ▸ heq
      injection heq with h1 h2
      rw [List.lookup_cons]
      simp
    · have hk : k ≠ k0 := by
        intro hkk
        subst hkk
        exact hnd.1 (List.mem_map_of_mem Prod.fst hmem)
      rw [List.lookup_cons, beq_false_of_ne hk]
      exact ih hnd.2 hmem

/-- `find?` with an upward-closed predicate on an ascending list returns the
least satisfying element. -/
theorem find?_sorted_eq (l : List ℤ) (hs : l.Sorted (· ≤ ·)) (rh t : ℤ)
    (ht : t ∈ l) (hge : rh ≤ t) (hmin : ∀ u ∈ l, rh ≤ u → t ≤ u) :
    l.find? (fun u => decide (rh ≤ u)) = some t := by
  induction l with
  | nil => simp at ht
  | cons a rest ih =>
    rw [List.sorted_cons] at hs
    by_cases ha : rh ≤ a
    · rw [List.find?_cons_of_pos _ (by simpa using ha)]
      have hta : t ≤ a := hmin a (by simp) ha
      have hat : a ≤ t := by
        rcases List.mem_cons.mp ht with rfl | htr
        · exact le_rfl
        · exact hs.1 t htr
      rw [le_antisymm hta hat]
    · rw [List.find?_cons_of_neg _ (by simpa using ha)]
      have htr : t ∈ rest := by
        rcases List.mem_cons.mp ht with rfl | htr
        · exact absurd hge ha
        · exact htr
      exact ih hs.2 htr fun u hu hru => hmin u (by simp [hu]) hru

/-- `Math.max(...)` of a list containing `M` with all elements at most `M`
is `M`. -/
theorem foldl_max_eq : ∀ (xs : List ℤ) (x M : ℤ), M ∈ x :: xs →
    (∀ u ∈ x :: xs, u ≤ M) → xs.foldl max x = M := by
  intro xs
  induction xs with
  | nil =>
    intro x M hM hub
    simp only [List.foldl_nil]
    have := hub x (by simp)
    rcases List.mem_cons.mp hM with rfl | h
    · rfl
    · simp at h
  | cons y ys ih =>
    intro x M hM hub
    simp only [List.foldl_cons]
    apply ih (max x y) M
    · rcases List.mem_cons.mp hM with rfl | h
      · have hyM : y ≤ M := hub y (by simp)
        have : max M y = M := max_eq_left hyM
        rw [← this]
        simp
      · rcases List.mem_cons.mp h with rfl | h2
        · have hxM : x ≤ M := hub x (by simp)
          have : max x M = M := max_eq_right hxM
          rw [← this]
          simp
        · simp [h2]
    · intro u hu
      rcases List.mem_cons.mp hu with rfl | h2
      · exact max_le (hub x (by simp)) (hub y (by simp))
      · exact hub u (by simp [h2])

/-- `maxKey` of a list containing its maximum `M` is `some M`. -/
theorem maxKey_eq (l : List ℤ) (M : ℤ) (hM : M ∈ l) (hub : ∀ u ∈ l, u ≤ M) :
    maxKey l = some M := by
  cases l with
  | nil => simp at hM
  | cons x xs =>
    show some (xs.foldl max x) = some M
    rw [foldl_max_eq xs x M hM hub]

/-- C8: for every positive sheet height and tier table with distinct keys
and positive prices, `calculateCost` rounds the height up to the next
12-unit tier and (i) returns the exact tier price when defined, (ii)
otherwise returns the price of the smallest key at or above the rounded
height, (iii) and saturates to the price of the largest key when the
rounded height exceeds every key.  The spec scenario
`{12: 5.28, 24: 10.56}`, height 18, yields 10.56. -/
theorem C8_cost_tiers (h : ℚ) (T : List (ℤ × ℚ)) (h0 : 0 < h)
    (hnd : (T.map Prod.fst).Nodup) (hpos : ∀ kv ∈ T, 0 < kv.2) :
    (∀ p, (Int.ceil (h / 12) * 12, p) ∈ T → calculateCost h T = some p) ∧
    ((Int.ceil (h / 12) * 12) ∉ T.map Prod.fst →
      ∀ t v, (t, v) ∈ T → Int.ceil (h / 12) * 12 ≤ t →
        (∀ u ∈ T.map Prod.fst, Int.ceil (h / 12) * 12 ≤ u → t ≤ u) →
        calculateCost h T = some v) ∧
    ((∀ u ∈ T.map Prod.fst, u < Int.ceil (h / 12) * 12) →
      ∀ M v, (M, v) ∈ T → (∀ u ∈ T.map Prod.fst, u ≤ M) →
        calculateCost h T = some v) ∧
    calculateCost 18 [(12, 5.28), (24, 10.56)] = some 10.56 := by
  have hrh12 : (12 : ℤ) ≤ Int.ceil (h / 12) * 12 := by
    have hpos12 : (0 : ℚ) < h / 12 := div_pos h0 (by norm_num)
    have h1 : 1 ≤ Int.ceil (h / 12) := Int.ceil_pos.mpr hpos12
    omega
  have hsorted : List.Sorted (· ≤ ·) (sortTiers (T.map Prod.fst)) :=
    List.sorted_insertionSort (· ≤ ·) (T.map Prod.fst)
  have hperm : List.Perm (sortTiers (T.map Prod.fst)) (T.map Prod.fst) :=
    List.perm_insertionSort (· ≤ ·) (T.map Prod.fst)
  refine ⟨?_, ?_, ?_, by with_unfolding_all decide⟩
  · intro p hmem
    have hp : 0 < p := hpos _ hmem
    have hlk : T.lookup (Int.ceil (h / 12) * 12) = some p :=
      lookup_of_mem_nodup T _ p hnd hmem
    unfold calculateCost costOfRounded
    rw [hlk]
    simp only [Option.getD_some]
    rw [if_pos (ne_of_gt hp)]
  · intro hnm t v hmem hge hmin
    have hlk : T.lookup (Int.ceil (h / 12) * 12) = none :=
      lookup_eq_none_of_not_mem T _ hnm
    have htS : t ∈ sortTiers (T.map Prod.fst) :=
      hperm.mem_iff.mpr (List.mem_map_of_mem Prod.fst hmem)
    have hfind : (sortTiers (T.map Prod.fst)).find?
        (fun u => decide (Int.ceil (h / 12) * 12 ≤ u)) = some t :=
      find?_sorted_eq _ hsorted _ t htS hge
        fun u hu hru => hmin u (hperm.mem_iff.mp hu) hru
    have ht0 : t ≠ 0 := by omega
    unfold calculateCost costOfRounded
    rw [hlk]
    simp only [Option.getD_none, ne_eq, not_true_eq_false, if_false]
    rw [hfind]
    simp only [ne_eq, ht0, not_false_eq_true, if_true]
    exact lookup_of_mem_nodup T t v hnd hmem
  · intro hlt M v hmem hub
    have hnm : (Int.ceil (h / 12) * 12) ∉ T.map Prod.fst := by
      intro hin
      exact absurd (hlt _ hin) (lt_irrefl _)
    have hlk : T.lookup (Int.ceil (h / 12) * 12) = none :=
      lookup_eq_none_of_not_mem T _ hnm
    have hfind : (sortTiers (T.map Prod.fst)).find?
        (fun u => decide (Int.ceil (h / 12) * 12 ≤ u)) = none := by
      rw [List.find?_eq_none]
      intro x hx
      simpa using not_le_of_lt (hlt x (hperm.mem_iff.mp hx))
    have hmax : maxKey (sortTiers (T.map Prod.fst)) = some M :=
      maxKey_eq _ M (hperm.mem_iff.mpr (List.mem_map_of_mem Prod.fst hmem))
        fun u hu => hub u (hperm.mem_iff.mp hu)
    unfold calculateCost costOfRounded
    rw [hlk]
    simp only [Option.getD_none, ne_eq, not_true_eq_false, if_false]
    rw [hfind, hmax]
    exact lookup_of_mem_nodup T M v hnd hmem

/-- Witness for C8_cost_tiers at the spec scenario table and height 18. -/
theorem C8_cost_tiers_witness :
    (∀ p, (Int.ceil ((18 : ℚ) / 12) * 12, p) ∈ [((12 : ℤ), (5.28 : ℚ)), (24, 10.56)] →
      calculateCost 18 [(12, 5.28), (24, 10.56)] = some p) ∧
    ((Int.ceil ((18 : ℚ) / 12) * 12) ∉
        [((12 : ℤ), (5.28 : ℚ)), (24, 10.56)].map Prod.fst →
      ∀ t v, (t, v) ∈ [((12 : ℤ), (5.28 : ℚ)), (24, 10.56)] →
        Int.ceil ((18 : ℚ) / 12) * 12 ≤ t →
        (∀ u ∈ [((12 : ℤ), (5.28 : ℚ)), (24, 10.56)].map Prod.fst,
          Int.ceil ((18 : ℚ) / 12) * 12 ≤ u → t ≤ u) →
        calculateCost 18 [(12, 5.28), (24, 10.56)] = some v) ∧
    ((∀ u ∈ [((12 : ℤ), (5.28 : ℚ)), (24, 10.56)].map Prod.fst,
        u < Int.ceil ((18 : ℚ) / 12) * 12) →
      ∀ M v, (M, v) ∈ [((12 : ℤ), (5.28 : ℚ)), (24, 10.56)] →
        (∀ u ∈ [((12 : ℤ), (5.28 : ℚ)), (24, 10.56)].map Prod.fst, u ≤ M) →
        calculateCost 18 [(12, 5.28), (24, 10.56)] = some v) ∧
    calculateCost 18 [(12, 5.28), (24, 10.56)] = some 10.56 :=
  C8_cost_tiers 18 [(12, 5.28), (24, 10.56)] (by norm_num)
    (by with_unfolding_all decide) (by with_unfolding_all decide)

/-! ## Claim C9: cost monotonicity on the stock table -/

/-- `costOfRounded` when the rounded height misses the table and `find?`
locates a (nonzero) next tier: the result is that tier's price. -/
theorem costOfRounded_eq_of_find (rh : ℤ) (T : List (ℤ × ℚ))
    (hlk : T.lookup rh = none) (t : ℤ)
    (hfind : (sortTiers (T.map Prod.fst)).find?
      (fun u => decide (rh ≤ u)) = some t)
    (ht : t ≠ 0) : costOfRounded rh T = T.lookup t := by
  unfold costOfRounded
  rw [hlk]
  simp only [Option.getD_none, ne_eq, not_true_eq_false, if_false]
  rw [hfind]
  simp only [ne_eq, ht, not_false_eq_true, if_true]

/-- `costOfRounded` when the rounded height misses the table and exceeds
every tier: the result is the largest tier's price (saturation). -/
theorem costOfRounded_eq_of_max (rh : ℤ) (T : List (ℤ × ℚ))
    (hlk : T.lookup rh = none)
    (hfind : (sortTiers (T.map Prod.fst)).find?
      (fun u => decide (rh ≤ u)) = none)
    (M : ℤ) (hmax : maxKey (sortTiers (T.map Prod.fst)) = some M) :
    costOfRounded rh T = T.lookup M := by
  unfold costOfRounded
  rw [hlk]
  simp only [Option.getD_none, ne_eq, not_true_eq_false, if_false]
  rw [hfind, hmax]

/-- The price `calculateCost` yields on the stock 12-unit table, as a
function of the rounded tier index `n = ceil(height / 12)`. -/
def defaultTierPrice (n : ℤ) : ℚ :=
  if n ≤ 1 then 5.28
  else if n = 2 then 10.56
  else if n = 3 then 15.84
  else if n = 4 then 21.12
  else if n = 5 then 26.40
  else if n = 6 then 35.20
  else if n ≤ 8 then 44.00
  else if n ≤ 10 then 49.28
  else if n = 11 then 56.32
  else if n ≤ 13 then 61.60
  else if n ≤ 15 then 68.64
  else 75.68

/-- Evaluation of the cost calculator on the stock table: for every rounded
tier index the result is `defaultTierPrice`. -/
theorem costOfRounded_default (n : ℤ) :
    costOfRounded (n * 12) DEFAULT_COST_TABLE = some (defaultTierPrice n) := by
  have htiers : sortTiers (DEFAULT_COST_TABLE.map Prod.fst) =
      [12, 24, 36, 48, 60, 80, 100, 120, 140, 160, 180, 200] := by
    with_unfolding_all decide
  by_cases h0 : n ≤ 0
  · have hnm : (n * 12) ∉ DEFAULT_COST_TABLE.map Prod.fst := by
      intro hin
      simp [DEFAULT_COST_TABLE] at hin
      omega
    have hlk := lookup_eq_none_of_not_mem DEFAULT_COST_TABLE _ hnm
    have hfind : (sortTiers (DEFAULT_COST_TABLE.map Prod.fst)).find?
        (fun u => decide (n * 12 ≤ u)) = some 12 := by
      rw [htiers]
      exact List.find?_cons_of_pos _ (by simp; omega)
    rw [costOfRounded_eq_of_find (n * 12) DEFAULT_COST_TABLE hlk 12 hfind
      (by omega)]
    have hdp : defaultTierPrice n = 5.28 := by
      unfold defaultTierPrice
      rw [if_pos (by omega : n ≤ 1)]
    rw [hdp]
    simp [DEFAULT_COST_TABLE, List.lookup_cons]
  · by_cases h17 : 17 ≤ n
    · have hnm : (n * 12) ∉ DEFAULT_COST_TABLE.map Prod.fst := by
        intro hin
        simp [DEFAULT_COST_TABLE] at hin
        omega
      have hlk := lookup_eq_none_of_not_mem DEFAULT_COST_TABLE _ hnm
      have hfind : (sortTiers (DEFAULT_COST_TABLE.map Prod.fst)).find?
          (fun u => decide (n * 12 ≤ u)) = none := by
        rw [htiers, List.find?_eq_none]
        intro x hx
        simp only [decide_eq_true_eq]
        fin_cases hx <;> omega
      have hmax : maxKey (sortTiers (DEFAULT_COST_TABLE.map Prod.fst)) =
          some 200 := by
        rw [htiers]
        with_unfolding_all decide
      rw [costOfRounded_eq_of_max (n * 12) DEFAULT_COST_TABLE hlk hfind 200 hmax]
      have hdp : defaultTierPrice n = 75.68 := by
        unfold defaultTierPrice
        rw [if_neg (show ¬n ≤ 1 by omega),
          if_neg (show ¬n = 2 by omega),
          if_neg (show ¬n = 3 by omega),
          if_neg (show ¬n = 4 by omega),
          if_neg (show ¬n = 5 by omega),
          if_neg (show ¬n = 6 by omega),
          if_neg (show ¬n ≤ 8 by omega),
          if_neg (show ¬n ≤ 10 by omega),
          if_neg (show ¬n = 11 by omega),
          if_neg (show ¬n ≤ 13 by omega),
          if_neg (show ¬n ≤ 15 by omega)]
      rw [hdp]
      simp [DEFAULT_COST_TABLE, List.lookup_cons]
    · push_neg at h0 h17
      interval_cases n <;>
        simp +decide [costOfRounded, DEFAULT_COST_TABLE, sortTiers,
          List.lookup_cons, List.insertionSort, List.orderedInsert, List.find?,
          defaultTierPrice]

/-- Above tier index 16 the stock-table price saturates at 75.68. -/
theorem dtp_ge16 (n : ℤ) (h : 16 ≤ n) : defaultTierPrice n = 75.68 := by
  unfold defaultTierPrice
  rw [if_neg (show ¬n ≤ 1 by omega),
    if_neg (show ¬n = 2 by omega),
    if_neg (show ¬n = 3 by omega),
    if_neg (show ¬n = 4 by omega),
    if_neg (show ¬n = 5 by omega),
    if_neg (show ¬n = 6 by omega),
    if_neg (show ¬n ≤ 8 by omega),
    if_neg (show ¬n ≤ 10 by omega),
    if_neg (show ¬n = 11 by omega),
    if_neg (show ¬n ≤ 13 by omega),
    if_neg (show ¬n ≤ 15 by omega)]

/-- Stock-table price lower bound from tier index 14 on. -/
theorem dtp_ge14 (n : ℤ) (h : 14 ≤ n) : 68.64 ≤ defaultTierPrice n := by
  rcases le_or_lt 16 n with h16 | h16
  · rw [dtp_ge16 n h16]
    norm_num
  · interval_cases n <;> norm_num [defaultTierPrice]

/-- Stock-table price lower bound from tier index 12 on. -/
theorem dtp_ge12 (n : ℤ) (h : 12 ≤ n) : 61.60 ≤ defaultTierPrice n := by
  rcases le_or_lt 14 n with h14 | h14
  · have := dtp_ge14 n h14
    linarith
  · interval_cases n <;> norm_num [defaultTierPrice]

/-- Stock-table price lower bound from tier index 11 on. -/
theorem dtp_ge11 (n : ℤ) (h : 11 ≤ n) : 56.32 ≤ defaultTierPrice n := by
  rcases le_or_lt 12 n with h12 | h12
  · have := dtp_ge12 n h12
    linarith
  · interval_cases n <;> norm_num [defaultTierPrice]

/-- Stock-table price lower bound from tier index 9 on. -/
theorem dtp_ge9 (n : ℤ) (h : 9 ≤ n) : 49.28 ≤ defaultTierPrice n := by
  rcases le_or_lt 11 n with h11 | h11
  · have := dtp_ge11 n h11
    linarith
  · interval_cases n <;> norm_num [defaultTierPrice]

/-- Stock-table price lower bound from tier index 7 on. -/
theorem dtp_ge7 (n : ℤ) (h : 7 ≤ n) : 44.00 ≤ defaultTierPrice n := by
  rcases le_or_lt 9 n with h9 | h9
  · have := dtp_ge9 n h9
    linarith
  · interval_cases n <;> norm_num [defaultTierPrice]

/-- Stock-table price lower bound from tier index 6 on. -/
theorem dtp_ge6 (n : ℤ) (h : 6 ≤ n) : 35.20 ≤ defaultTierPrice n := by
  rcases le_or_lt 7 n with h7 | h7
  · have := dtp_ge7 n h7
    linarith
  · interval_cases n <;> norm_num [defaultTierPrice]

/-- Stock-table price lower bound from tier index 5 on. -/
theorem dtp_ge5 (n : ℤ) (h : 5 ≤ n) : 26.40 ≤ defaultTierPrice n := by
  rcases le_or_lt 6 n with h6 | h6
  · have := dtp_ge6 n h6
    linarith
  · interval_cases n <;> norm_num [defaultTierPrice]

/-- Stock-table price lower bound from tier index 4 on. -/
theorem dtp_ge4 (n : ℤ) (h : 4 ≤ n) : 21.12 ≤ defaultTierPrice n := by
  rcases le_or_lt 5 n with h5 | h5
  · have := dtp_ge5 n h5
    linarith
  · interval_cases n <;> norm_num [defaultTierPrice]

/-- Stock-table price lower bound from tier index 3 on. -/
theorem dtp_ge3 (n : ℤ) (h : 3 ≤ n) : 15.84 ≤ defaultTierPrice n := by
  rcases le_or_lt 4 n with h4 | h4
  · have := dtp_ge4 n h4
    linarith
  · interval_cases n <;> norm_num [defaultTierPrice]

/-- Stock-table price lower bound from tier index 2 on. -/
theorem dtp_ge2 (n : ℤ) (h : 2 ≤ n) : 10.56 ≤ defaultTierPrice n := by
  rcases le_or_lt 3 n with h3 | h3
  · have := dtp_ge3 n h3
    linarith
  · interval_cases n <;> norm_num [defaultTierPrice]

/-- Global stock-table price lower bound. -/
theorem dtp_ge_bot (n : ℤ) : 5.28 ≤ defaultTierPrice n := by
  rcases le_or_lt 2 n with h2 | h2
  · have := dtp_ge2 n h2
    linarith
  · unfold defaultTierPrice
    rw [if_pos (by omega : n ≤ 1)]

/-- The stock-table price function is monotone in the tier index. -/
theorem defaultTierPrice_mono {m n : ℤ} (h : m ≤ n) :
    defaultTierPrice m ≤ defaultTierPrice n := by
  rcases le_or_lt m 1 with h1 | h1
  · rw [show defaultTierPrice m = 5.28 by
      unfold defaultTierPrice; rw [if_pos h1]]
    exact dtp_ge_bot n
  rcases le_or_lt m 2 with h2 | h2
  · rw [show defaultTierPrice m = 10.56 by
      unfold defaultTierPrice; rw [if_neg (by omega), if_pos (by omega)]]
    exact dtp_ge2 n (by omega)
  rcases le_or_lt m 3 with h3 | h3
  · rw [show defaultTierPrice m = 15.84 by
      unfold defaultTierPrice
      rw [if_neg (show ¬m ≤ 1 by omega),
        if_neg (show ¬m = 2 by omega),
        if_pos (show m = 3 by omega)]]
    exact dtp_ge3 n (by omega)
  rcases le_or_lt m 4 with h4 | h4
  · rw [show defaultTierPrice m = 21.12 by
      unfold defaultTierPrice
      rw [if_neg (show ¬m ≤ 1 by omega),
        if_neg (show ¬m = 2 by omega),
        if_neg (show ¬m = 3 by omega),
        if_pos (show m = 4 by omega)]]
    exact dtp_ge4 n (by omega)
  rcases le_or_lt m 5 with h5 | h5
  · rw [show defaultTierPrice m = 26.40 by
      unfold defaultTierPrice
      rw [if_neg (show ¬m ≤ 1 by omega),
        if_neg (show ¬m = 2 by omega),
        if_neg (show ¬m = 3 by omega),
        if_neg (show ¬m = 4 by omega),
        if_pos (show m = 5 by omega)]]
    exact dtp_ge5 n (by omega)
  rcases le_or_lt m 6 with h6 | h6
  · rw [show defaultTierPrice m = 35.20 by
      unfold defaultTierPrice
      rw [if_neg (show ¬m ≤ 1 by omega),
        if_neg (show ¬m = 2 by omega),
        if_neg (show ¬m = 3 by omega),
        if_neg (show ¬m = 4 by omega),
        if_neg (show ¬m = 5 by omega),
        if_pos (show m = 6 by omega)]]
    exact dtp_ge6 n (by omega)
  rcases le_or_lt m 8 with h8 | h8
  · rw [show defaultTierPrice m = 44.00 by
      unfold defaultTierPrice
      rw [if_neg (show ¬m ≤ 1 by omega),
        if_neg (show ¬m = 2 by omega),
        if_neg (show ¬m = 3 by omega),
        if_neg (show ¬m = 4 by omega),
        if_neg (show ¬m = 5 by omega),
        if_neg (show ¬m = 6 by omega),
        if_pos (show m ≤ 8 by omega)]]
    exact dtp_ge7 n (by omega)
  rcases le_or_lt m 10 with h10 | h10
  · rw [show defaultTierPrice m = 49.28 by
      unfold defaultTierPrice
      rw [if_neg (show ¬m ≤ 1 by omega),
        if_neg (show ¬m = 2 by omega),
        if_neg (show ¬m = 3 by omega),
        if_neg (show ¬m = 4 by omega),
        if_neg (show ¬m = 5 by omega),
        if_neg (show ¬m = 6 by omega),
        if_neg (show ¬m ≤ 8 by omega),
        if_pos (show m ≤ 10 by omega)]]
    exact dtp_ge9 n (by omega)
  rcases le_or_lt m 11 with h11 | h11
  · rw [show defaultTierPrice m = 56.32 by
      unfold defaultTierPrice
      rw [if_neg (show ¬m ≤ 1 by omega),
        if_neg (show ¬m = 2 by omega),
        if_neg (show ¬m = 3 by omega),
        if_neg (show ¬m = 4 by omega),
        if_neg (show ¬m = 5 by omega),
        if_neg (show ¬m = 6 by omega),
        if_neg (show ¬m ≤ 8 by omega),
        if_neg (show ¬m ≤ 10 by omega),
        if_pos (show m = 11 by omega)]]
    exact dtp_ge11 n (by omega)
  rcases le_or_lt m 13 with h13 | h13
  · rw [show defaultTierPrice m = 61.60 by
      unfold defaultTierPrice
      rw [if_neg (show ¬m ≤ 1 by omega),
        if_neg (show ¬m = 2 by omega),
        if_neg (show ¬m = 3 by omega),
        if_neg (show ¬m = 4 by omega),
        if_neg (show ¬m = 5 by omega),
        if_neg (show ¬m = 6 by omega),
        if_neg (show ¬m ≤ 8 by omega),
        if_neg (show ¬m ≤ 10 by omega),
        if_neg (show ¬m = 11 by omega),
        if_pos (show m ≤ 13 by omega)]]
    exact dtp_ge12 n (by omega)
  rcases le_or_lt m 15 with h15 | h15
  · rw [show defaultTierPrice m = 68.64 by
      unfold defaultTierPrice
      rw [if_neg (show ¬m ≤ 1 by omega),
        if_neg (show ¬m = 2 by omega),
        if_neg (show ¬m = 3 by omega),
        if_neg (show ¬m = 4 by omega),
        if_neg (show ¬m = 5 by omega),
        if_neg (show ¬m = 6 by omega),
        if_neg (show ¬m ≤ 8 by omega),
        if_neg (show ¬m ≤ 10 by omega),
        if_neg (show ¬m = 11 by omega),
        if_neg (show ¬m ≤ 13 by omega),
        if_pos (show m ≤ 15 by omega)]]
    exact dtp_ge14 n (by omega)
  · rw [dtp_ge16 m (by omega), dtp_ge16 n (by omega)]

/-- C9: for the stock 12-unit tier table, the cost calculator is monotone in
the sheet height. -/
theorem C9_cost_monotone (h1 h2 : ℚ) (hle : h1 ≤ h2) :
    (calculateCost h1 DEFAULT_COST_TABLE).getD 0 ≤
      (calculateCost h2 DEFAULT_COST_TABLE).getD 0 := by
  have e1 : calculateCost h1 DEFAULT_COST_TABLE =
      some (defaultTierPrice (Int.ceil (h1 / 12))) := costOfRounded_default _
  have e2 : calculateCost h2 DEFAULT_COST_TABLE =
      some (defaultTierPrice (Int.ceil (h2 / 12))) := costOfRounded_default _
  rw [e1, e2, Option.getD_some, Option.getD_some]
  refine defaultTierPrice_mono (Int.ceil_mono ?_)
  gcongr

/-- Witness for C9_cost_monotone: heights 1 and 13 (prices 5.28 and
10.56). -/
theorem C9_cost_monotone_witness :
    (calculateCost 1 DEFAULT_COST_TABLE).getD 0 ≤
      (calculateCost 13 DEFAULT_COST_TABLE).getD 0 :=
  C9_cost_monotone 1 13 (by norm_num)
